import Mathlib

/-!
# Verification of the SingularityPlugins deception-detection core

Shallow embedding, in Lean 4, of the TypeScript sources of the
SIN-Solver deception-detection pipeline:

* `state-machine.ts` (`StateMachine`): embedded with an explicit heap so
  that the reference/aliasing behaviour of the JavaScript object model
  (spread copies `{...obj}`, shared nested maps, arrays of object
  references) is captured faithfully.
* `deception-hunter.ts` (`DeceptionHunter`): pattern scan, click
  verification, confidence scoring.
* `ml/ml-deception-hunter.ts` (`MLDeceptionHunter`): hybrid regex + ML
  analysis.  The TensorFlow models are external black boxes; they are
  embedded as oracle functions supplied as parameters.
* `ml/preprocessor.ts` (`MLPreprocessor`): vocabulary, HTML text
  extraction, tokenisation, vectorisation.
* `EnsembleModel.calculateHybridScore` / `EnsembleModel.getVerdict`:
  the file `ml/ensemble.ts` is not present in the tree; its code is
  reproduced verbatim in the repository document `ML-ARCHITECTURE.md`
  (lines 486-495), from which these two pure methods are embedded.

Numbers that are JavaScript floats are embedded as `ℚ`; all the
constants involved (0.40, 0.60, 0.2, 0.4, 0.7, 1.0, severity weights)
are exactly representable in binary64, and every claim under study is
about exact arithmetic on these constants, so `ℚ` is adequate.
-/

namespace SingularityPlugins

/-! ## Deception patterns (`types.ts`, `deception-hunter.ts`) -/

/-- Severity of a deception pattern (`'low' | 'medium' | 'high'`). -/
inductive Severity where
  | low
  | medium
  | high
deriving DecidableEq, Repr

/-- `IDeceptionHunterPattern`: a named, severity-tagged match rule.
The rule is stored textually in the form `"/source/flags"`. -/
structure IDeceptionHunterPattern where
  type : String
  regex : String
  severity : Severity
deriving DecidableEq, Repr

/-- The four predefined patterns registered by the constructors of both
`DeceptionHunter` and `MLDeceptionHunter` (identical lists). -/
def predefinedPatterns : List IDeceptionHunterPattern :=
  [ ⟨"CAPTCHA", "/captcha|recaptcha|challenge|verification/i", .high⟩,
    ⟨"HONEYPOT", "/honeypot|trap|decoy|fake/i", .medium⟩,
    ⟨"PHISHING", "/phishing|spoof|clone|fake_login/i", .high⟩,
    ⟨"FAKE_ELEMENT", "/hidden|invisible|opacity-0|pointer-events-none/i", .medium⟩ ]

/-! ### Parsing the textual `"/source/flags"` rule format

`DeceptionHunter.analyze` parses each rule with the JavaScript regex
`^\/(.*)\/([gimsuy]*)$`; `MLDeceptionHunter.analyze` uses
`^\/(.+)\/([gimuy]*)$` (non-empty source, no `s` flag).  For either
regex, a match exists iff the string starts with `'/'`, contains a
later `'/'` whose suffix consists solely of flag characters, and the
in-between source contains no line terminator (`.` does not match line
terminators).  Because `'/'` is not a flag character, the only split
the engine can settle on is at the *last* `'/'` of the string. -/

/-- Characters `.` can match in a JavaScript regex without the `s`
flag (line terminators excluded; the rare U+2028/U+2029 cases are
outside the embedded character set of interest). -/
def jsDotOk (c : Char) : Bool :=
  c ≠ '\n' && c ≠ '\r'

/-- Flag characters accepted by `DeceptionHunter`'s rule format
(`[gimsuy]`). -/
def dhFlagChar (c : Char) : Bool :=
  c = 'g' || c = 'i' || c = 'm' || c = 's' || c = 'u' || c = 'y'

/-- Flag characters accepted by `MLDeceptionHunter`'s rule format
(`[gimuy]`). -/
def mlFlagChar (c : Char) : Bool :=
  c = 'g' || c = 'i' || c = 'm' || c = 'u' || c = 'y'

/-- Split a character list at its *last* `'/'`: returns the part
before and the part after, or `none` when no `'/'` occurs. -/
def splitAtLastSlash : List Char → Option (List Char × List Char)
  | [] => none
  | c :: rest =>
    match splitAtLastSlash rest with
    | some (b, a) => some (c :: b, a)
    | none => if c = '/' then some ([], rest) else none

/-- Shared shape of the two rule parsers: leading `'/'`, a source part
validated by `srcOk`, a closing `'/'`, then flag characters. -/
def parseRuleWith (flagChar : Char → Bool) (srcOk : List Char → Bool)
    (s : String) : Option (String × String) :=
  match s.data with
  | '/' :: rest =>
    match splitAtLastSlash rest with
    | some (src, flags) =>
      if srcOk src && flags.all flagChar then some (⟨src⟩, ⟨flags⟩) else none
    | none => none
  | _ => none

/-- `DeceptionHunter.analyze`'s rule parse:
`pattern.regex.match(/^\/(.*)\/([gimsuy]*)$/)`. -/
def parseRuleDH (s : String) : Option (String × String) :=
  parseRuleWith dhFlagChar (fun src => src.all jsDotOk) s

/-- `MLDeceptionHunter.analyze`'s rule parse:
`regexStr.match(/^\/(.+)\/([gimuy]*)$/)`. -/
def parseRuleML (s : String) : Option (String × String) :=
  parseRuleWith mlFlagChar (fun src => !src.isEmpty && src.all jsDotOk) s

/-! ### The pattern scanners

`new RegExp(source, flags)` and `re.test(content)` invoke the external
JavaScript regex engine.  They are embedded as oracle parameters:
`compileOk source flags` tells whether construction succeeds (it throws
a `SyntaxError` on an invalid source such as `"("`), and
`rtest source flags content` gives the result of `test` on a rule that
did compile. -/

/-- `DeceptionHunter.analyze` (deception-hunter.ts, lines 39-54).
No try/catch: a rule that parses into the `/source/flags` shape but
whose source fails to compile makes `new RegExp` throw, which
propagates out of `analyze`; the error value is the engine's
`SyntaxError` (its message is engine-defined, hence `Unit`).  A rule
that does not parse is skipped (`match` returns `null`). -/
def dhAnalyzeGo (compileOk : String → String → Bool)
    (rtest : String → String → String → Bool) (content : String) :
    List IDeceptionHunterPattern → List IDeceptionHunterPattern →
    Except Unit (List IDeceptionHunterPattern)
  | [], acc => .ok acc
  | p :: rest, acc =>
    match parseRuleDH p.regex with
    | none => dhAnalyzeGo compileOk rtest content rest acc
    | some (src, flags) =>
      if compileOk src flags then
        if rtest src flags content then
          dhAnalyzeGo compileOk rtest content rest (acc ++ [p])
        else
          dhAnalyzeGo compileOk rtest content rest acc
      else
        .error ()

/-- `DeceptionHunter.analyze(page_content)` over a registered pattern
list. -/
def dhAnalyze (compileOk : String → String → Bool)
    (rtest : String → String → String → Bool)
    (patterns : List IDeceptionHunterPattern) (content : String) :
    Except Unit (List IDeceptionHunterPattern) :=
  dhAnalyzeGo compileOk rtest content patterns []

/-- `MLDeceptionHunter.analyze` (ml-deception-hunter.ts, lines
139-161).  The per-pattern try/catch turns a compile failure into a
skip; scanning always continues. -/
def mlAnalyze (compileOk : String → String → Bool)
    (rtest : String → String → String → Bool)
    (patterns : List IDeceptionHunterPattern) (content : String) :
    List IDeceptionHunterPattern :=
  match patterns with
  | [] => []
  | p :: rest =>
    match parseRuleML p.regex with
    | none => mlAnalyze compileOk rtest rest content
    | some (src, flags) =>
      if compileOk src flags then
        if rtest src flags content then
          p :: mlAnalyze compileOk rtest rest content
        else
          mlAnalyze compileOk rtest rest content
      else
        mlAnalyze compileOk rtest rest content

/-- Whether one pattern is matched by `MLDeceptionHunter.analyze`:
rule parses, compiles, and its test accepts the content. -/
def mlPatternMatches (compileOk : String → String → Bool)
    (rtest : String → String → String → Bool) (content : String)
    (p : IDeceptionHunterPattern) : Bool :=
  match parseRuleML p.regex with
  | none => false
  | some (src, flags) => compileOk src flags && rtest src flags content

/-- Whether one pattern is matched by `DeceptionHunter.analyze`
(assuming its compilation does not throw). -/
def dhPatternMatches (compileOk : String → String → Bool)
    (rtest : String → String → String → Bool) (content : String)
    (p : IDeceptionHunterPattern) : Bool :=
  match parseRuleDH p.regex with
  | none => false
  | some (src, flags) => compileOk src flags && rtest src flags content

/-- A pattern is harmless for `DeceptionHunter.analyze` when its rule
either does not parse or compiles successfully: only then can the scan
not abort on it. -/
def dhPatternSafe (compileOk : String → String → Bool)
    (p : IDeceptionHunterPattern) : Bool :=
  match parseRuleDH p.regex with
  | none => true
  | some (src, flags) => compileOk src flags

/-! ## EnsembleModel (ML-ARCHITECTURE.md, lines 486-495)

`ml/ensemble.ts` itself is absent from the tree; the class body is
reproduced in the repository's `ML-ARCHITECTURE.md`, whose listing is
the code source for the two pure methods below (the test suite
`__tests__/ml-models.test.ts` exercises them against the same
behaviour). -/

/-- Verdict buckets, in increasing order of risk. -/
inductive Verdict where
  | SAFE
  | LOW_RISK
  | MEDIUM
  | HIGH_THREAT
deriving DecidableEq, Repr

/-- Risk rank of a verdict (SAFE < LOW_RISK < MEDIUM < HIGH_THREAT). -/
def Verdict.rank : Verdict → ℕ
  | .SAFE => 0
  | .LOW_RISK => 1
  | .MEDIUM => 2
  | .HIGH_THREAT => 3

/-- `EnsembleModel.calculateHybridScore(regexScore, mlScore)`:
`(regexScore * 0.40) + (mlScore * 0.60)`. -/
def calculateHybridScore (regexScore mlScore : ℚ) : ℚ :=
  (regexScore * 0.40) + (mlScore * 0.60)

/-- `EnsembleModel.getVerdict(score)`: threshold buckets at 0.2, 0.4,
0.7. -/
def getVerdict (score : ℚ) : Verdict :=
  if score < 0.2 then .SAFE
  else if score < 0.4 then .LOW_RISK
  else if score < 0.7 then .MEDIUM
  else .HIGH_THREAT

/-! ## StateMachine (state-machine.ts)

JavaScript objects are heap references.  `{...obj}` copies the
top-level fields into a *new* object, so nested references (the `data`
map of an `IState`) stay shared, and an array spread `[...arr]` copies
the array but not the objects it references.  To settle the defensive
copy and aliasing claims this structure must be kept, so the embedding
carries an explicit heap: `IState` objects and data maps live in heap
cells addressed by naturals, and `StateMachine.current` / `.history`
hold addresses.

Non-determinism from the environment (`Date.now()`, `generateId()`)
is supplied by the caller as explicit `ts`/`idv` arguments. -/

/-- A JavaScript `Record<string, unknown>` data map, embedded as an
insertion-ordered association list (string values suffice for every
claim under study). -/
abbrev DataMap := List (String × String)

/-- Heap cell for an `IState` object: `id`, `name`, `timestamp`, and
the heap address of the nested `data` map (a shared reference). -/
structure IState where
  id : String
  name : String
  timestamp : ℕ
  data : ℕ
deriving DecidableEq, Repr

/-- Explicit heap: one address counter, a store of `IState` cells and
a store of data-map cells.  Unallocated addresses hold junk that is
never read by machine code. -/
structure Heap where
  stateCells : ℕ → IState
  dataCells : ℕ → DataMap
  next : ℕ

/-- The empty heap. -/
def Heap.empty : Heap :=
  ⟨fun _ => ⟨"", "", 0, 0⟩, fun _ => [], 0⟩

/-- Allocate a fresh `IState` cell; returns the new heap and the
address. -/
def Heap.allocState (h : Heap) (s : IState) : Heap × ℕ :=
  (⟨fun a => if a = h.next then s else h.stateCells a, h.dataCells, h.next + 1⟩, h.next)

/-- Allocate a fresh data-map cell; returns the new heap and the
address. -/
def Heap.allocData (h : Heap) (d : DataMap) : Heap × ℕ :=
  (⟨h.stateCells, fun a => if a = h.next then d else h.dataCells a, h.next + 1⟩, h.next)

/-- A caller-side mutation of an `IState` object it holds a reference
to (e.g. `obj.name = n`): overwrite the cell at address `a`. -/
def Heap.writeState (h : Heap) (a : ℕ) (s : IState) : Heap :=
  ⟨fun x => if x = a then s else h.stateCells x, h.dataCells, h.next⟩

/-- A caller-side mutation of a data map it holds a reference to
(e.g. `obj.data["k"] = v`): overwrite the cell at address `a`. -/
def Heap.writeData (h : Heap) (a : ℕ) (d : DataMap) : Heap :=
  ⟨h.stateCells, fun x => if x = a then d else h.dataCells x, h.next⟩

/-- `IStateConfig`: initial-state name, valid state names, transition
table (`types.ts`). -/
structure IStateConfig where
  initialState : String
  states : List String
  transitions : List (String × List String)
deriving DecidableEq, Repr

/-- The `StateMachine` object: its configured `states` and
`transitions` fields, and heap addresses of the current `IState` and
of each history entry. -/
structure StateMachine where
  states : List String
  transitions : List (String × List String)
  current : ℕ
  history : List ℕ

/-- `new StateMachine(config)` (state-machine.ts, lines 18-33): store
the configuration *without any validation*, allocate the initial
current state (fresh empty data map), and push a spread copy
`{...this.current}` (fresh object, same `data` reference) onto the
history. -/
def StateMachine.create (cfg : IStateConfig) (idv : String) (ts : ℕ)
    (h : Heap) : Heap × StateMachine :=
  let (h1, dAddr) := h.allocData []
  let (h2, cAddr) := h1.allocState ⟨idv, cfg.initialState, ts, dAddr⟩
  let (h3, histAddr) := h2.allocState (h2.stateCells cAddr)
  (h3, ⟨cfg.states, cfg.transitions, cAddr, [histAddr]⟩)

/-- `setState(name, data)` (lines 41-59): throws `Invalid state name`
when `name` is not in `states`; otherwise allocates the new state
(the caller's `data` map is entered into the heap at call time),
makes it current, and pushes a spread copy onto the history.  Returns
the address of the new current state (JavaScript returns the object
reference). -/
def StateMachine.setState (h : Heap) (m : StateMachine) (name : String)
    (data : DataMap) (idv : String) (ts : ℕ) :
    Except String (Heap × StateMachine × ℕ) :=
  if name ∈ m.states then
    let (h1, dAddr) := h.allocData data
    let (h2, sAddr) := h1.allocState ⟨idv, name, ts, dAddr⟩
    let (h3, histAddr) := h2.allocState (h2.stateCells sAddr)
    .ok (h3, { m with current := sAddr, history := m.history ++ [histAddr] }, sAddr)
  else
    .error ("Invalid state name: " ++ name)

/-- `transition(to, metadata)` (lines 68-78): reads the allowed list
for the current state's name (`this.transitions[from] || []`), throws
`Illegal transition` when `to` is not in it, otherwise delegates to
`setState` and returns `true`. -/
def StateMachine.transition (h : Heap) (m : StateMachine) (toName : String)
    (metadata : DataMap) (idv : String) (ts : ℕ) :
    Except String (Heap × StateMachine × Bool) :=
  let fromName := (h.stateCells m.current).name
  let allowed := (m.transitions.lookup fromName).getD []
  if toName ∈ allowed then
    match m.setState h toName metadata idv ts with
    | .ok (h', m', _) => .ok (h', m', true)
    | .error e => .error e
  else
    .error ("Illegal transition: " ++ fromName ++ " -> " ++ toName)

/-- `getState()` (lines 84-86): returns `{...this.current}` — a fresh
object whose fields (including the `data` *reference*) are copied from
the current cell. -/
def StateMachine.getState (h : Heap) (m : StateMachine) : Heap × ℕ :=
  h.allocState (h.stateCells m.current)

/-- `getHistory()` (lines 92-94): returns `[...this.history]` — a
fresh array holding the *same* object references. -/
def StateMachine.getHistory (m : StateMachine) : List ℕ :=
  m.history

/-- `reset()` (lines 100-106): when the history is non-empty, the
current state becomes `{...history[0], timestamp, id}` (same `data`
reference as `history[0]`) and the history is replaced by a one-entry
array holding a spread copy of the new current state. -/
def StateMachine.reset (h : Heap) (m : StateMachine) (idv : String)
    (ts : ℕ) : Heap × StateMachine :=
  match m.history.head? with
  | some a0 =>
    let init := h.stateCells a0
    let (h1, cAddr) := h.allocState { init with timestamp := ts, id := idv }
    let (h2, histAddr) := h1.allocState (h1.stateCells cAddr)
    (h2, { m with current := cAddr, history := [histAddr] })
  | none => (h, m)

/-! ### Call sequences

Claims about "any sequence of setState/transition/reset calls" are
settled over explicit operation lists.  A call that throws leaves the
machine unchanged (`setState`/`transition` throw before any
mutation). -/

/-- One external call to the machine. -/
inductive SMOp where
  | set (name : String) (data : DataMap) (idv : String) (ts : ℕ)
  | trans (toName : String) (data : DataMap) (idv : String) (ts : ℕ)
  | reset (idv : String) (ts : ℕ)
deriving Repr

/-- Apply one call; the `Bool` records whether the call succeeded
(a `reset` always counts as succeeding, but it is excluded from the
claims that count calls). -/
def applyOp (p : Heap × StateMachine) : SMOp → (Heap × StateMachine) × Bool
  | .set name data idv ts =>
    match p.2.setState p.1 name data idv ts with
    | .ok (h', m', _) => ((h', m'), true)
    | .error _ => (p, false)
  | .trans toName data idv ts =>
    match p.2.transition p.1 toName data idv ts with
    | .ok (h', m', _) => ((h', m'), true)
    | .error _ => (p, false)
  | .reset idv ts => (p.2.reset p.1 idv ts, true)

/-- Run a list of calls, returning the final heap/machine and the
number of calls that succeeded. -/
def runOps (p : Heap × StateMachine) : List SMOp → (Heap × StateMachine) × ℕ
  | [] => (p, 0)
  | op :: rest =>
    let (p', ok) := applyOp p op
    let (q, n) := runOps p' rest
    (q, (if ok then 1 else 0) + n)

/-- Whether a call is a `reset`. -/
def SMOp.isReset : SMOp → Bool
  | .reset _ _ => true
  | _ => false

/-- An operation list free of `reset` calls. -/
def resetFree : List SMOp → Bool
  | [] => true
  | .reset _ _ :: _ => false
  | _ :: rest => resetFree rest

/-! ## Click verification (deception-hunter.ts, lines 62-91)

Snapshots are opaque `Record<string, unknown>` maps; they are embedded
as insertion-ordered association lists with string values (`url` is
read through ordinary property lookup, and `JSON.stringify` renders
keys and values in insertion order). -/

/-- A before/after page snapshot. -/
abbrev Snapshot := List (String × String)

/-- `JSON.stringify` of a snapshot: keys and string values rendered in
insertion order (`\x7b`/`\x7d` are the literal braces). -/
def jsonStringify (s : Snapshot) : String :=
  "\x7b" ++
    String.intercalate ","
      (s.map fun kv => "\"" ++ kv.1 ++ "\":\"" ++ kv.2 ++ "\"") ++
  "\x7d"

/-- `IClickVerification`: result record of `verifyClick`. -/
structure IClickVerification where
  before_state : Snapshot
  after_state : Snapshot
  verified : Bool
  confidence : ℚ
deriving DecidableEq, Repr

/-- `DeceptionHunter.verifyClick(before, after)`: `verified` is set
when the `url` properties differ, or else when the serialized
snapshots differ; `confidence` is `1.0` when verified, `0.0`
otherwise. -/
def verifyClick (before after : Snapshot) : IClickVerification :=
  let urlChanged : Bool := before.lookup "url" ≠ after.lookup "url"
  let verified : Bool :=
    urlChanged || (jsonStringify before ≠ jsonStringify after)
  { before_state := before, after_state := after, verified := verified,
    confidence := if verified then 1.0 else 0.0 }

/-- Modelled from the spec's words (§4.3), for comparison with
`verifyClick`: "verified = true if the `url` field differs between
snapshots; else true if the full serialized snapshots differ; else
false." -/
def verifyClickSpecVerified (before after : Snapshot) : Bool :=
  if before.lookup "url" ≠ after.lookup "url" then true
  else if jsonStringify before ≠ jsonStringify after then true
  else false

/-! ## MLPreprocessor (ml/preprocessor.ts)

The JavaScript `Map<string, number>` vocabulary is embedded as an
insertion-ordered association list whose keys stay distinct (entries
are only added after a `has` check), so `vocab.size` is its length. -/

/-- JavaScript `toLowerCase()`, character-wise (ASCII; every token and
content character of interest is ASCII). -/
def jsToLower (s : String) : String :=
  ⟨s.data.map Char.toLower⟩

/-- The `MLPreprocessor` object. -/
structure MLPreprocessor where
  vocab : List (String × ℕ)
  vocabSize : ℕ
  sequenceLength : ℕ
deriving DecidableEq, Repr

/-- The ~30 seed tokens of `initializeDefaultVocab` (lines 27-40), in
source order. -/
def commonTokens : List String :=
  [ "captcha", "recaptcha", "challenge", "verification", "verify",
    "honeypot", "trap", "decoy", "fake", "hidden", "invisible",
    "phishing", "spoof", "clone", "login", "submit", "click",
    "button", "form", "input", "password", "username", "email",
    "suspicious", "warning", "danger", "alert", "error",
    "script", "redirect", "popup", "overlay", "modal" ]

/-- `initializeDefaultVocab`: seed token `i` (0-based) is mapped to
index `i + 1`, regardless of `vocabSize`. -/
def defaultVocab : List (String × ℕ) :=
  (commonTokens.enum).map fun ti => (jsToLower ti.2, ti.1 + 1)

/-- `new MLPreprocessor(vocabSize, sequenceLength)` (lines 18-22). -/
def MLPreprocessor.create (vocabSize sequenceLength : ℕ) : MLPreprocessor :=
  ⟨defaultVocab, vocabSize, sequenceLength⟩

/-- One iteration of `addTokens`' `forEach` body (lines 146-153):
with `idx = vocab.size + 1`, insert only when `idx <= vocabSize` and
the lower-cased token is absent. -/
def addTokenStep (p : MLPreprocessor) (token : String) : MLPreprocessor :=
  if p.vocab.length + 1 ≤ p.vocabSize ∧ (p.vocab.lookup (jsToLower token)).isNone then
    { p with vocab := p.vocab ++ [(jsToLower token, p.vocab.length + 1)] }
  else
    p

/-- `MLPreprocessor.addTokens(tokens)`. -/
def MLPreprocessor.addTokens (p : MLPreprocessor) (tokens : List String) :
    MLPreprocessor :=
  tokens.foldl addTokenStep p

/-- `MLPreprocessor.getVocab()`: returns `new Map(this.vocab)` — a
fresh map with the same entries. -/
def MLPreprocessor.getVocab (p : MLPreprocessor) : List (String × ℕ) :=
  p.vocab

/-! ### HTML text extraction and tokenisation (preprocessor.ts, lines
101-126)

`extractTextFromHTML` chains three JavaScript regex replaces
(`/<script[^>]*>[\s\S]*?<\/script>/gi`, the same for `style`, then
`/<[^>]*>/g` by a space), the five entity decodes, and `toLowerCase`.
For `/<tag[^>]*>[\s\S]*?<\/tag>/gi`, a match starting at a position
exists iff the position starts (case-insensitively) with `<tag`, a
`'>'` occurs later (the `[^>]*` part can only end at the first one),
and the closing tag occurs after it (the lazy part ends at its first
occurrence); the `g` flag resumes scanning after each removal. -/

/-- ASCII case-insensitive character comparison (`i` flag). -/
def charEqCI (a b : Char) : Bool :=
  a.toLower = b.toLower

/-- Whether `pat` starts `s`, case-insensitively. -/
def startsWithCI : List Char → List Char → Bool
  | [], _ => true
  | _ :: _, [] => false
  | p :: ps, c :: cs => charEqCI p c && startsWithCI ps cs

/-- Drop characters up to and including the first occurrence of
`target`; `none` when it does not occur. -/
def dropThroughChar (target : Char) : List Char → Option (List Char)
  | [] => none
  | c :: cs => if c = target then some cs else dropThroughChar target cs

/-- Drop characters up to and including the first case-insensitive
occurrence of `pat`; `none` when it does not occur. -/
def dropThroughCI (pat : List Char) : List Char → Option (List Char)
  | [] => if pat.isEmpty then some [] else none
  | c :: cs =>
    if startsWithCI pat (c :: cs) then some ((c :: cs).drop pat.length)
    else dropThroughCI pat cs

/-- Attempt the block regex `<tag[^>]*>[\s\S]*?</tag>` at the head of
`s`: returns the remainder after the closing tag on a match. -/
def matchBlock (openTag closeTag : List Char) (s : List Char) :
    Option (List Char) :=
  if startsWithCI openTag s then
    match dropThroughChar '>' (s.drop openTag.length) with
    | some rest1 => dropThroughCI closeTag rest1
    | none => none
  else none

/-- Global replacement of `<tag[^>]*>...</tag>` blocks by nothing;
`fuel` bounds the recursion (each step consumes at least one
character, so the initial length suffices). -/
def removeBlocksGo (openTag closeTag : List Char) :
    ℕ → List Char → List Char
  | 0, s => s
  | _ + 1, [] => []
  | fuel + 1, c :: cs =>
    match matchBlock openTag closeTag (c :: cs) with
    | some rest => removeBlocksGo openTag closeTag fuel rest
    | none => c :: removeBlocksGo openTag closeTag fuel cs

/-- `.replace(/<tag[^>]*>[\s\S]*?<\/tag>/gi, '')`. -/
def removeBlocks (openTag closeTag : List Char) (s : List Char) :
    List Char :=
  removeBlocksGo openTag closeTag s.length s

/-- `.replace(/<[^>]*>/g, ' ')`: each `<...>` group becomes one
space; a `'<'` with no later `'>'` is kept literally. -/
def removeTagsGo : ℕ → List Char → List Char
  | 0, s => s
  | _ + 1, [] => []
  | fuel + 1, c :: cs =>
    if c = '<' then
      match dropThroughChar '>' cs with
      | some rest => ' ' :: removeTagsGo fuel rest
      | none => c :: removeTagsGo fuel cs
    else c :: removeTagsGo fuel cs

/-- Global tag removal. -/
def removeTags (s : List Char) : List Char :=
  removeTagsGo s.length s

/-- Case-sensitive occurrence check at the head of a list. -/
def startsWith : List Char → List Char → Bool
  | [], _ => true
  | _ :: _, [] => false
  | p :: ps, c :: cs => p = c && startsWith ps cs

/-- Global left-to-right non-overlapping replacement of `pat` by
`rep` (the entity decodes `.replace(/&lt;/g, '<')` etc.; `pat` is
never empty). -/
def replaceAllGo (pat rep : List Char) : ℕ → List Char → List Char
  | 0, s => s
  | _ + 1, [] => []
  | fuel + 1, c :: cs =>
    if startsWith pat (c :: cs) then
      rep ++ replaceAllGo pat rep fuel ((c :: cs).drop pat.length)
    else c :: replaceAllGo pat rep fuel cs

/-- String-level global replacement. -/
def replaceAll (s pat rep : String) : String :=
  ⟨replaceAllGo pat.data rep.data s.data.length s.data⟩

/-- `MLPreprocessor.extractTextFromHTML(html)` (lines 101-117). -/
def extractTextFromHTML (html : String) : String :=
  let t1 := removeBlocks "<script".data "</script>".data html.data
  let t2 := removeBlocks "<style".data "</style>".data t1
  let t3 := String.mk (removeTags t2)
  let t4 := replaceAll (replaceAll (replaceAll (replaceAll (replaceAll
      t3 "&lt;" "<") "&gt;" ">") "&amp;" "&") "&quot;" "\"") "&#39;" "'"
  jsToLower t4

/-- A JavaScript word character (`\w` = `[A-Za-z0-9_]`); the split
class `[\s\W]+` is exactly the runs of non-word characters. -/
def isWordChar (c : Char) : Bool :=
  ('a' ≤ c && c ≤ 'z') || ('A' ≤ c && c ≤ 'Z') ||
    ('0' ≤ c && c ≤ '9') || c = '_'

/-- Accumulating tokenizer: collects maximal runs of word characters
(`split(/[\s\W]+/)` followed by dropping empty strings). -/
def tokenizeGo : List Char → List Char → List String
  | acc, [] => if acc.isEmpty then [] else [String.mk acc.reverse]
  | acc, c :: cs =>
    if isWordChar c then tokenizeGo (c :: acc) cs
    else if acc.isEmpty then tokenizeGo [] cs
    else String.mk acc.reverse :: tokenizeGo [] cs

/-- `MLPreprocessor.tokenize(text)` (lines 122-126). -/
def tokenize (text : String) : List String :=
  tokenizeGo [] text.data

/-- `MLPreprocessor.preprocessContent(htmlContent)` (lines 47-66):
extract text, tokenize, map through the vocabulary (unknown tokens to
0), and write into a zero vector of length `vocabSize`. -/
def MLPreprocessor.preprocessContent (p : MLPreprocessor)
    (htmlContent : String) : List ℕ :=
  let cleanText := extractTextFromHTML htmlContent
  let tokens := tokenize cleanText
  let indices := tokens.map fun t => (p.vocab.lookup (jsToLower t)).getD 0
  let firstPart := indices.take p.vocabSize
  firstPart ++ List.replicate (p.vocabSize - firstPart.length) 0

/-- An interaction record (`action`, `timestamp`, optional
coordinates, optional `metadata.confidence` — the only metadata field
the code reads). -/
structure InteractionRecord where
  action : String
  timestamp : ℕ
  x : Option ℚ
  y : Option ℚ
  confidence : Option ℚ
deriving DecidableEq, Repr

/-- `MLPreprocessor.actionToFeature(action)` (lines 131-141). -/
def actionToFeature (action : String) : ℚ :=
  if action = "CLICK" then 1.0
  else if action = "HOVER" then 0.5
  else if action = "SCROLL" then 0.3
  else if action = "INPUT" then 0.7
  else if action = "SUBMIT" then 1.0
  else if action = "UNKNOWN" then 0.1
  else 0.1

/-- One 4-feature row of `sequenceFromInteractions` (lines 80-88). -/
def interactionFeatures (r : InteractionRecord) : List ℚ :=
  [ actionToFeature r.action, (r.x.getD 0) / 1000, (r.y.getD 0) / 1000,
    r.confidence.getD 0 ]

/-- `MLPreprocessor.sequenceFromInteractions(interactions)` (lines
73-96): map up to `sequenceLength` records to feature rows and pad
with zero rows. -/
def MLPreprocessor.sequenceFromInteractions (p : MLPreprocessor)
    (interactions : List InteractionRecord) : List (List ℚ) :=
  let features := (interactions.take p.sequenceLength).map interactionFeatures
  features ++ List.replicate (p.sequenceLength - features.length) [0, 0, 0, 0]

/-! ## MLDeceptionHunter (ml/ml-deception-hunter.ts)

The three TensorFlow models held in the nullable fields are external;
a loaded model is embedded as a pure scoring function (the
inference-time contract: a probability from the feature input). -/

/-- The `MLDeceptionHunter` object. -/
structure MLDeceptionHunter where
  baseHunterPatterns : List IDeceptionHunterPattern
  preprocessor : MLPreprocessor
  cnnModel : Option (List ℕ → ℚ)
  lstmModel : Option (List (List ℚ) → ℚ)
  ensemble : Option (ℚ → ℚ → ℚ → ℚ)
  mlEnabled : Bool

/-- `new MLDeceptionHunter(stateMachine)` (lines 27-31): preprocessor
`MLPreprocessor(1000, 100)`, predefined patterns, no models loaded
(the stored state machine is never used by any method). -/
def MLDeceptionHunter.create : MLDeceptionHunter :=
  ⟨predefinedPatterns, MLPreprocessor.create 1000 100, none, none, none, false⟩

/-- `initializeML()` (lines 59-71): idempotent; loads the three
models (supplied here as the functions they denote) and sets
`mlEnabled`. -/
def MLDeceptionHunter.initializeML (hunter : MLDeceptionHunter)
    (cnn : List ℕ → ℚ) (lstm : List (List ℚ) → ℚ)
    (ens : ℚ → ℚ → ℚ → ℚ) : MLDeceptionHunter :=
  if hunter.mlEnabled then hunter
  else { hunter with cnnModel := some cnn, lstmModel := some lstm,
                     ensemble := some ens, mlEnabled := true }

/-- Severity weight of the additive regex score (high 30, medium 20,
low 10). -/
def severityWeight : Severity → ℚ
  | .high => 30
  | .medium => 20
  | .low => 10

/-- `MLDeceptionHunter.analyzeRegex(page_content)` (lines 166-186):
0 when nothing matched, otherwise the severity-weight sum capped at
100. -/
def analyzeRegex (compileOk : String → String → Bool)
    (rtest : String → String → String → Bool)
    (patterns : List IDeceptionHunterPattern) (content : String) : ℚ :=
  let matched := mlAnalyze compileOk rtest patterns content
  if matched.length = 0 then 0
  else min 100 (matched.foldl (fun s p => s + severityWeight p.severity) 0)

/-- Result record of `analyzeWithML`. -/
structure MLAnalysisResult where
  regex_score : ℚ
  ml_score : ℚ
  final_score : ℚ
  confidence : ℚ
  verdict : Verdict
  matched_patterns : List IDeceptionHunterPattern
  cnn_score : ℚ
  lstm_score : ℚ

/-- `MLDeceptionHunter.analyzeWithML(page_content,
interaction_history)` (lines 76-134): fails before `initializeML`;
otherwise scores the regex patterns, runs the loaded models (the LSTM
only on a non-empty history), fuses through the ensemble, and builds
the hybrid result. -/
def MLDeceptionHunter.analyzeWithML (compileOk : String → String → Bool)
    (rtest : String → String → String → Bool)
    (hunter : MLDeceptionHunter) (page_content : String)
    (interaction_history : List InteractionRecord) :
    Except String MLAnalysisResult :=
  if !hunter.mlEnabled then
    .error "ML not initialized. Call initializeML() first."
  else
    let regexScore := analyzeRegex compileOk rtest hunter.baseHunterPatterns page_content
    let matchedPatterns := mlAnalyze compileOk rtest hunter.baseHunterPatterns page_content
    let scores :=
      match hunter.cnnModel, hunter.lstmModel, hunter.ensemble with
      | some cnn, some lstm, some ens =>
        let cnnScore := cnn (hunter.preprocessor.preprocessContent page_content)
        let lstmScore :=
          if interaction_history.length > 0 then
            lstm (hunter.preprocessor.sequenceFromInteractions interaction_history)
          else 0
        (cnnScore, lstmScore, ens cnnScore lstmScore regexScore)
      | _, _, _ => ((0 : ℚ), (0 : ℚ), (0 : ℚ))
    let finalScore := (regexScore * 0.40) + (scores.2.2 * 100 * 0.60)
    let confidence := min 1.0 (finalScore / 100)
    .ok { regex_score := regexScore,
          ml_score := scores.2.2 * 100,
          final_score := finalScore,
          confidence := confidence,
          verdict := getVerdict confidence,
          matched_patterns := matchedPatterns,
          cnn_score := scores.1 * 100,
          lstm_score := scores.2.1 * 100 }

/-! ## Theorems -/

/-- Claim C1, counterexample: the spec formula
`regexScore*0.40 + mlProbability*100*0.60` does not describe
`calculateHybridScore` — at `regexScore = 0`, `mlProbability = 1` the
code returns `0.6`, the formula demands `60`. -/
theorem C1_calculateHybridScore_counterexample :
    calculateHybridScore 0 1 ≠ (0 : ℚ) * 0.40 + 1 * 100 * 0.60 := by
  norm_num [calculateHybridScore]

/-- Claim C1, amended: `calculateHybridScore(r, ml)` is
`r*0.40 + ml*0.60` with the ml input already on the 0-100 scale (the
×100 conversion from a probability is its caller's job); for every
`regexScore ∈ [0,100]` and `mlProbability ∈ [0,1]`, applying it to the
scaled probability gives exactly
`regexScore*0.40 + mlProbability*100*0.60`. -/
theorem C1_calculateHybridScore_amended (r m : ℚ) (_hr0 : 0 ≤ r)
    (_hr1 : r ≤ 100) (_hm0 : 0 ≤ m) (_hm1 : m ≤ 1) :
    calculateHybridScore r (m * 100) = r * 0.40 + m * 100 * 0.60 := by
  unfold calculateHybridScore
  ring

/-- Witness for C1's amended theorem at `regexScore = 75`,
`mlProbability = 0.85` (the spec's Scenario E: result 81). -/
theorem C1_calculateHybridScore_amended_witness :
    (0 : ℚ) ≤ 75 ∧ (75 : ℚ) ≤ 100 ∧ (0 : ℚ) ≤ 0.85 ∧ (0.85 : ℚ) ≤ 1 ∧
      calculateHybridScore 75 (0.85 * 100) = 75 * 0.40 + 0.85 * 100 * 0.60 :=
  ⟨by norm_num, by norm_num, by norm_num, by norm_num,
    C1_calculateHybridScore_amended 75 0.85 (by norm_num) (by norm_num)
      (by norm_num) (by norm_num)⟩

/-- Claim C9: for every score in `[0,1]`, `getVerdict` returns `SAFE`
below 0.2, `LOW_RISK` on `[0.2, 0.4)`, `MEDIUM` on `[0.4, 0.7)` and
`HIGH_THREAT` from 0.7 up, and it is a non-decreasing step function of
the score under the risk ordering
`SAFE < LOW_RISK < MEDIUM < HIGH_THREAT`. -/
theorem C9_getVerdict_spec :
    (∀ s : ℚ, 0 ≤ s → s ≤ 1 →
      (s < 0.2 → getVerdict s = .SAFE) ∧
      (0.2 ≤ s → s < 0.4 → getVerdict s = .LOW_RISK) ∧
      (0.4 ≤ s → s < 0.7 → getVerdict s = .MEDIUM) ∧
      (0.7 ≤ s → getVerdict s = .HIGH_THREAT)) ∧
    (∀ s t : ℚ, s ≤ t → (getVerdict s).rank ≤ (getVerdict t).rank) := by
  constructor
  · intro s _ _
    refine ⟨fun h1 => ?_, fun h1 h2 => ?_, fun h1 h2 => ?_, fun h1 => ?_⟩ <;>
      · unfold getVerdict
        split_ifs <;> first | rfl | linarith
  · intro s t hst
    unfold getVerdict
    split_ifs <;> simp [Verdict.rank] <;> linarith

/-- Witness for C9 at `score = 0.55` (the test suite's `MEDIUM`
case) together with a monotonicity instance. -/
theorem C9_getVerdict_spec_witness :
    (0 : ℚ) ≤ 0.55 ∧ (0.55 : ℚ) ≤ 1 ∧ (0.4 : ℚ) ≤ 0.55 ∧
      (0.55 : ℚ) < 0.7 ∧ getVerdict 0.55 = .MEDIUM ∧
      (getVerdict 0.15).rank ≤ (getVerdict 0.85).rank :=
  ⟨by norm_num, by norm_num, by norm_num, by norm_num,
    (C9_getVerdict_spec.1 0.55 (by norm_num) (by norm_num)).2.2.1
      (by norm_num) (by norm_num),
    C9_getVerdict_spec.2 0.15 0.85 (by norm_num)⟩

/-- Claim C7: `verifyClick` sets `verified` exactly as the spec's
cascade describes (url difference, else serialized difference, else
false), sets `confidence` to 1 when verified and 0 otherwise, and on
deep-equal snapshots yields `verified = false`, `confidence = 0`. -/
theorem C7_verifyClick_spec :
    (∀ b a : Snapshot,
      (verifyClick b a).verified = verifyClickSpecVerified b a ∧
      (verifyClick b a).confidence =
        (if (verifyClick b a).verified then 1 else 0)) ∧
    (∀ b a : Snapshot, b = a →
      (verifyClick b a).verified = false ∧ (verifyClick b a).confidence = 0) := by
  constructor
  · intro b a
    constructor
    · by_cases hu : b.lookup "url" = a.lookup "url" <;>
        by_cases hs : jsonStringify b = jsonStringify a <;>
          simp [verifyClick, verifyClickSpecVerified, hu, hs]
    · by_cases hu : b.lookup "url" = a.lookup "url" <;>
        by_cases hs : jsonStringify b = jsonStringify a <;>
          simp [verifyClick, hu, hs] <;> norm_num
  · intro b a hba
    subst hba
    simp [verifyClick]
    norm_num

/-- Witness for C7's deep-equal branch at the concrete snapshot
`{url: "a"}` compared with itself. -/
theorem C7_verifyClick_spec_witness :
    ([("url", "a")] : Snapshot) = [("url", "a")] ∧
      (verifyClick [("url", "a")] [("url", "a")]).verified = false ∧
      (verifyClick [("url", "a")] [("url", "a")]).confidence = 0 :=
  ⟨rfl, C7_verifyClick_spec.2 [("url", "a")] [("url", "a")] rfl⟩

/-! ### Claim C2: scan isolation -/

/-- Helper: `mlAnalyze` is the registration-ordered filter of the
patterns its rule parse + compile + test accepts. -/
theorem mlAnalyze_eq_filter (co : String → String → Bool)
    (rt : String → String → String → Bool)
    (pats : List IDeceptionHunterPattern) (content : String) :
    mlAnalyze co rt pats content =
      pats.filter (mlPatternMatches co rt content) := by
  induction pats with
  | nil => rfl
  | cons p rest ih =>
    rw [List.filter_cons]
    unfold mlAnalyze
    cases hp : parseRuleML p.regex with
    | none =>
      have hm : mlPatternMatches co rt content p = false := by
        simp [mlPatternMatches, hp]
      simp [hm, ih]
    | some sf =>
      obtain ⟨src, flags⟩ := sf
      have hm : mlPatternMatches co rt content p =
          (co src flags && rt src flags content) := by
        simp [mlPatternMatches, hp]
      by_cases hc : co src flags = true <;>
        by_cases ht : rt src flags content = true <;>
          simp [hm, hc, ht, ih]

/-- Helper: generalised accumulator form of the `DeceptionHunter`
scan, under the assumption that no rule both parses and fails to
compile. -/
theorem dhAnalyzeGo_eq_filter (co : String → String → Bool)
    (rt : String → String → String → Bool) (content : String)
    (pats : List IDeceptionHunterPattern)
    (acc : List IDeceptionHunterPattern)
    (hsafe : ∀ p ∈ pats, dhPatternSafe co p = true) :
    dhAnalyzeGo co rt content pats acc =
      .ok (acc ++ pats.filter (dhPatternMatches co rt content)) := by
  induction pats generalizing acc with
  | nil => simp [dhAnalyzeGo]
  | cons p rest ih =>
    have hp := hsafe p (by simp)
    have hrest : ∀ q ∈ rest, dhPatternSafe co q = true := by
      intro q hq
      exact hsafe q (by simp [hq])
    unfold dhPatternSafe at hp
    rw [List.filter_cons]
    unfold dhAnalyzeGo
    cases hdr : parseRuleDH p.regex with
    | none =>
      have hm : dhPatternMatches co rt content p = false := by
        simp [dhPatternMatches, hdr]
      simp [hm, ih _ hrest]
    | some sf =>
      obtain ⟨src, flags⟩ := sf
      rw [hdr] at hp
      have hp' : co src flags = true := by simpa using hp
      have hm : dhPatternMatches co rt content p =
          (co src flags && rt src flags content) := by
        simp [dhPatternMatches, hdr]
      by_cases ht : rt src flags content = true <;>
        simp [hm, hp', ht, ih _ hrest]

/-- Claim C2, counterexample: a registered rule that parses into the
`/source/flags` shape but whose source fails to compile (the engine
throws on `"("`) aborts `DeceptionHunter.analyze` entirely, instead of
being skipped: with the bad pattern registered first, the scan errors
and the good pattern's match is lost, while the same scan without the
bad pattern returns it. -/
theorem C2_dhAnalyze_counterexample :
    dhAnalyze (fun src _ => src != "(") (fun _ _ _ => true)
        [⟨"BAD", "/(/i", .high⟩, ⟨"GOOD", "/good/i", .low⟩] "good stuff" =
      .error () ∧
    dhAnalyze (fun src _ => src != "(") (fun _ _ _ => true)
        [⟨"GOOD", "/good/i", .low⟩] "good stuff" =
      .ok [⟨"GOOD", "/good/i", .low⟩] := by
  constructor <;> rfl

/-- Claim C2, amended: `MLDeceptionHunter.analyze` returns the
matching patterns in registration order and skips every pattern whose
rule fails to parse, compile or match, never aborting; for
`DeceptionHunter.analyze` the isolation only covers rules that fail to
*parse* — provided no registered rule both parses and fails to
compile, it returns the registration-ordered matches, but a rule that
parses and then fails to compile aborts the whole scan (previous
theorem). -/
theorem C2_analyze_isolation_amended :
    (∀ (co : String → String → Bool) (rt : String → String → String → Bool)
        (pats : List IDeceptionHunterPattern) (content : String),
      mlAnalyze co rt pats content =
        pats.filter (mlPatternMatches co rt content)) ∧
    (∀ (co : String → String → Bool) (rt : String → String → String → Bool)
        (pats : List IDeceptionHunterPattern) (content : String),
      (∀ p ∈ pats, dhPatternSafe co p = true) →
      dhAnalyze co rt pats content =
        .ok (pats.filter (dhPatternMatches co rt content))) := by
  refine ⟨mlAnalyze_eq_filter, fun co rt pats content hsafe => ?_⟩
  simpa [dhAnalyze] using dhAnalyzeGo_eq_filter co rt content pats [] hsafe

/-- Witness for C2's amended theorem: the predefined patterns all
compile (engine oracle accepting everything), and the scan of content
matched by every rule returns all four in registration order. -/
theorem C2_analyze_isolation_amended_witness :
    (∀ p ∈ predefinedPatterns,
      dhPatternSafe (fun _ _ => true) p = true) ∧
    dhAnalyze (fun _ _ => true) (fun _ _ _ => true) predefinedPatterns
        "captcha honeypot phishing hidden" =
      .ok (predefinedPatterns.filter
        (dhPatternMatches (fun _ _ => true) (fun _ _ _ => true)
          "captcha honeypot phishing hidden")) :=
  ⟨by decide,
    C2_analyze_isolation_amended.2 (fun _ _ => true) (fun _ _ _ => true)
      predefinedPatterns "captcha honeypot phishing hidden" (by decide)⟩

/-! ### Claim C10: vocabulary capacity -/

/-- Helper: `addTokenStep` keeps the configured sizes. -/
theorem addTokenStep_vocabSize (p : MLPreprocessor) (t : String) :
    (addTokenStep p t).vocabSize = p.vocabSize := by
  unfold addTokenStep
  split <;> rfl

/-- Helper: `addTokens` keeps the configured sizes. -/
theorem addTokens_vocabSize (p : MLPreprocessor) (ts : List String) :
    (p.addTokens ts).vocabSize = p.vocabSize := by
  unfold MLPreprocessor.addTokens
  induction ts generalizing p with
  | nil => rfl
  | cons t rest ih => simpa [List.foldl, addTokenStep_vocabSize] using ih (addTokenStep p t)

/-- Helper: the capacity/index invariant of the vocabulary. -/
def VocabInv (p : MLPreprocessor) : Prop :=
  p.vocab.length ≤ p.vocabSize ∧ ∀ kv ∈ p.vocab, 1 ≤ kv.2 ∧ kv.2 ≤ p.vocabSize

/-- Helper: one `addTokens` iteration preserves the invariant. -/
theorem vocabInv_addTokenStep (p : MLPreprocessor) (t : String)
    (h : VocabInv p) : VocabInv (addTokenStep p t) := by
  obtain ⟨hlen, hidx⟩ := h
  unfold addTokenStep
  split
  case isTrue hc =>
    refine ⟨by simpa using hc.1, ?_⟩
    intro kv hkv
    simp only [List.mem_append, List.mem_singleton] at hkv
    rcases hkv with hkv | hkv
    · exact hidx kv hkv
    · subst hkv
      exact ⟨Nat.le_add_left 1 _, hc.1⟩
  case isFalse => exact ⟨hlen, hidx⟩

/-- Helper: a whole `addTokens` call preserves the invariant. -/
theorem vocabInv_addTokens (p : MLPreprocessor) (ts : List String)
    (h : VocabInv p) : VocabInv (p.addTokens ts) := by
  unfold MLPreprocessor.addTokens
  induction ts generalizing p with
  | nil => exact h
  | cons t rest ih => exact ih (addTokenStep p t) (vocabInv_addTokenStep p t h)

/-- Helper: a key already bound keeps its binding across an appended
entry. -/
theorem lookup_append_of_isSome {l l' : List (String × ℕ)} {k : String}
    (h : (l.lookup k).isSome = true) : (l ++ l').lookup k = l.lookup k := by
  induction l with
  | nil => simp at h
  | cons kv rest ih =>
    by_cases hk : k = kv.1
    · simp [List.lookup, hk]
    · simp only [List.lookup, List.cons_append] at h ⊢
      rw [beq_false_of_ne hk] at h ⊢
      exact ih h

/-- Claim C10, counterexample: the constructor seeds 33 default
tokens with indices 1..33 regardless of the configured capacity, so a
preprocessor built with `vocabSize = 10` immediately holds 33 entries
and assigns the index 33 > 10. -/
theorem C10_vocab_counterexample :
    (MLPreprocessor.create 10 50).vocab.length = 33 ∧
    ¬ (MLPreprocessor.create 10 50).vocab.length ≤
        (MLPreprocessor.create 10 50).vocabSize ∧
    (MLPreprocessor.create 10 50).vocab.lookup "modal" = some 33 := by
  refine ⟨by decide, by decide, by decide⟩

/-- Helper: the invariant is preserved across any sequence of
`addTokens` calls. -/
theorem vocabInv_foldBatches (p : MLPreprocessor)
    (batches : List (List String)) (h : VocabInv p) :
    VocabInv (batches.foldl MLPreprocessor.addTokens p) := by
  induction batches generalizing p with
  | nil => exact h
  | cons b rest ih =>
    exact ih (p.addTokens b) (vocabInv_addTokens p b h)

/-- Helper: a sequence of `addTokens` calls keeps the configured
capacity field. -/
theorem foldBatches_vocabSize (p : MLPreprocessor)
    (batches : List (List String)) :
    (batches.foldl MLPreprocessor.addTokens p).vocabSize = p.vocabSize := by
  induction batches generalizing p with
  | nil => rfl
  | cons b rest ih =>
    simpa [List.foldl, addTokens_vocabSize] using ih (p.addTokens b)

/-- Helper: the invariant holds at construction when the capacity is
at least the 33 seed tokens. -/
theorem vocabInv_create (vs sl : ℕ) (h33 : 33 ≤ vs) :
    VocabInv (MLPreprocessor.create vs sl) := by
  have hvocab : (MLPreprocessor.create vs sl).vocab = defaultVocab := rfl
  have hsize : (MLPreprocessor.create vs sl).vocabSize = vs := rfl
  constructor
  · have hlen : defaultVocab.length = 33 := by decide
    rw [hvocab, hsize, hlen]
    exact h33
  · intro kv hkv
    rw [hvocab] at hkv
    have hall : ∀ kv ∈ defaultVocab, 1 ≤ kv.2 ∧ kv.2 ≤ 33 := by decide
    obtain ⟨h1, h2⟩ := hall kv hkv
    rw [hsize]
    exact ⟨h1, le_trans h2 h33⟩

/-- Claim C10, amended: for every capacity `vocabSize ≥ 33` (the seed
size) and every sequence of `addTokens` calls, the vocabulary holds at
most `vocabSize` entries and every assigned index lies in
`[1, vocabSize]`; unconditionally, a token offered when the vocabulary
is full, or whose lower-cased form is already present, is silently
ignored, and a token that is added leaves every existing binding
unchanged. -/
theorem C10_addTokens_amended (vs sl : ℕ) (h33 : 33 ≤ vs)
    (batches : List (List String)) :
    ((batches.foldl MLPreprocessor.addTokens
        (MLPreprocessor.create vs sl)).vocab.length ≤ vs ∧
      ∀ kv ∈ (batches.foldl MLPreprocessor.addTokens
        (MLPreprocessor.create vs sl)).vocab, 1 ≤ kv.2 ∧ kv.2 ≤ vs) ∧
    (∀ (q : MLPreprocessor) (t : String),
      ¬ q.vocab.length + 1 ≤ q.vocabSize ∨
        (q.vocab.lookup (jsToLower t)).isSome = true →
      addTokenStep q t = q) ∧
    (∀ (q : MLPreprocessor) (t k : String),
      (q.vocab.lookup k).isSome = true →
      ((addTokenStep q t).vocab.lookup k = q.vocab.lookup k)) := by
  refine ⟨?_, ?_, ?_⟩
  · have hinv := vocabInv_foldBatches (MLPreprocessor.create vs sl) batches
      (vocabInv_create vs sl h33)
    have hvs := foldBatches_vocabSize (MLPreprocessor.create vs sl) batches
    have hvs' : (MLPreprocessor.create vs sl).vocabSize = vs := rfl
    rw [hvs'] at hvs
    obtain ⟨h1, h2⟩ := hinv
    rw [hvs] at h1 h2
    exact ⟨h1, h2⟩
  · intro q t hq
    unfold addTokenStep
    rw [if_neg]
    rintro ⟨hle, hnone⟩
    rcases hq with hq | hq
    · exact hq hle
    · rw [Option.isNone_iff_eq_none] at hnone
      rw [hnone] at hq
      exact absurd hq (by simp)
  · intro q t k hk
    unfold addTokenStep
    split
    · exact lookup_append_of_isSome hk
    · rfl

/-- Witness for C10's amended theorem at capacity 100 with one
`addTokens(["newtoken"])` call. -/
theorem C10_addTokens_amended_witness :
    33 ≤ 100 ∧
      ((([["newtoken"]] : List (List String)).foldl MLPreprocessor.addTokens
          (MLPreprocessor.create 100 50)).vocab.length ≤ 100 ∧
        ∀ kv ∈ (([["newtoken"]] : List (List String)).foldl
            MLPreprocessor.addTokens (MLPreprocessor.create 100 50)).vocab,
          1 ≤ kv.2 ∧ kv.2 ≤ 100) :=
  ⟨by decide, (C10_addTokens_amended 100 50 (by decide) [["newtoken"]]).1⟩

/-! ### Claim C8: the hybrid ML analysis -/

/-- Helper: `analyzeRegex` is the capped severity-weight sum over the
matched patterns (the early `return 0` coincides with the cap of the
empty sum). -/
theorem analyzeRegex_eq_min (co : String → String → Bool)
    (rt : String → String → String → Bool)
    (pats : List IDeceptionHunterPattern) (content : String) :
    analyzeRegex co rt pats content =
      min 100 ((mlAnalyze co rt pats content).foldl
        (fun s p => s + severityWeight p.severity) 0) := by
  unfold analyzeRegex
  cases hm : mlAnalyze co rt pats content with
  | nil => simp
  | cons p rest => simp [hm]

/-- Claim C8: once `initializeML` has completed, `analyzeWithML`
succeeds and returns `regex_score` equal to the capped severity-weight
sum over the matched patterns, `final_score = regex_score*0.40 +
mlProbability*100*0.60` (with `mlProbability` the ensemble's output on
the CNN score, LSTM score and regex score), `confidence =
min(1, final_score/100)` and `verdict = getVerdict(confidence)`; the
interaction history is vectorised only when non-empty — on an empty
history the result does not depend on the LSTM model at all — and
before `initializeML` the call fails. -/
theorem C8_analyzeWithML_spec (co : String → String → Bool)
    (rt : String → String → String → Bool) (cnn : List ℕ → ℚ)
    (lstm : List (List ℚ) → ℚ) (ens : ℚ → ℚ → ℚ → ℚ) (content : String)
    (history : List InteractionRecord) :
    (∃ r : MLAnalysisResult,
      MLDeceptionHunter.analyzeWithML co rt
          (MLDeceptionHunter.create.initializeML cnn lstm ens)
          content history = .ok r ∧
      r.regex_score =
        min 100 ((mlAnalyze co rt predefinedPatterns content).foldl
          (fun s p => s + severityWeight p.severity) 0) ∧
      r.matched_patterns = mlAnalyze co rt predefinedPatterns content ∧
      (let cnnS := cnn ((MLPreprocessor.create 1000 100).preprocessContent content)
       let lstmS := if history.length > 0 then
           lstm ((MLPreprocessor.create 1000 100).sequenceFromInteractions history)
         else 0
       let mlProb := ens cnnS lstmS r.regex_score
       r.final_score = r.regex_score * 0.40 + mlProb * 100 * 0.60 ∧
       r.ml_score = mlProb * 100) ∧
      r.confidence = min 1.0 (r.final_score / 100) ∧
      r.verdict = getVerdict r.confidence) ∧
    (history = [] →
      ∀ lstm' : List (List ℚ) → ℚ,
        MLDeceptionHunter.analyzeWithML co rt
            (MLDeceptionHunter.create.initializeML cnn lstm' ens)
            content history =
          MLDeceptionHunter.analyzeWithML co rt
            (MLDeceptionHunter.create.initializeML cnn lstm ens)
            content history) ∧
    MLDeceptionHunter.analyzeWithML co rt MLDeceptionHunter.create
        content history =
      .error "ML not initialized. Call initializeML() first." := by
  have hready : MLDeceptionHunter.create.initializeML cnn lstm ens =
      { baseHunterPatterns := predefinedPatterns,
        preprocessor := MLPreprocessor.create 1000 100,
        cnnModel := some cnn, lstmModel := some lstm,
        ensemble := some ens, mlEnabled := true } := rfl
  refine ⟨?_, ?_, ?_⟩
  · rw [hready]
    refine ⟨_, rfl, ?_, rfl, ⟨rfl, rfl⟩, rfl, rfl⟩
    exact analyzeRegex_eq_min co rt predefinedPatterns content
  · intro hhist lstm'
    subst hhist
    rfl
  · rfl

/-- Witness for C8's empty-history branch: with constant models, the
result on an empty history is the same for two different LSTM
models. -/
theorem C8_analyzeWithML_spec_witness :
    ([] : List InteractionRecord) = [] ∧
      MLDeceptionHunter.analyzeWithML (fun _ _ => true) (fun _ _ _ => true)
          (MLDeceptionHunter.create.initializeML (fun _ => 0.5)
            (fun _ => 0.9) (fun _ _ _ => 0.25))
          "captcha" [] =
        MLDeceptionHunter.analyzeWithML (fun _ _ => true) (fun _ _ _ => true)
          (MLDeceptionHunter.create.initializeML (fun _ => 0.5)
            (fun _ => 0.1) (fun _ _ _ => 0.25))
          "captcha" [] :=
  ⟨rfl,
    (C8_analyzeWithML_spec (fun _ _ => true) (fun _ _ _ => true)
        (fun _ => 0.5) (fun _ => 0.1) (fun _ _ _ => 0.25) "captcha"
        []).2.1 rfl (fun _ => 0.9)⟩

/-! ### StateMachine: equation lemmas

Each operation's result is described as an explicit heap/machine pair;
everything downstream reduces to arithmetic on addresses. -/

/-- Helper: observed name of the current state. -/
def currentName (p : Heap × StateMachine) : String :=
  (p.1.stateCells p.2.current).name

/-- Helper: heap cell of `history[0]` (the history is never empty in
any reachable machine). -/
def headState (p : Heap × StateMachine) : IState :=
  p.1.stateCells p.2.history.headI

/-- Helper: content of `history[0]`'s data map. -/
def headData (p : Heap × StateMachine) : DataMap :=
  p.1.dataCells (headState p).data

/-- Helper: explicit form of the constructor's result. -/
theorem create_eq (cfg : IStateConfig) (idv : String) (ts : ℕ) (h : Heap) :
    StateMachine.create cfg idv ts h =
      (⟨fun a => if a = h.next + 2 then ⟨idv, cfg.initialState, ts, h.next⟩
                 else if a = h.next + 1 then ⟨idv, cfg.initialState, ts, h.next⟩
                 else h.stateCells a,
        fun a => if a = h.next then [] else h.dataCells a,
        h.next + 3⟩,
       ⟨cfg.states, cfg.transitions, h.next + 1, [h.next + 2]⟩) := by
  unfold StateMachine.create Heap.allocData Heap.allocState
  simp

/-- Helper: explicit form of a successful `setState`. -/
theorem setState_ok_eq (h : Heap) (m : StateMachine) (name : String)
    (data : DataMap) (idv : String) (ts : ℕ) (hname : name ∈ m.states) :
    m.setState h name data idv ts = .ok
      (⟨fun a => if a = h.next + 2 then ⟨idv, name, ts, h.next⟩
                 else if a = h.next + 1 then ⟨idv, name, ts, h.next⟩
                 else h.stateCells a,
        fun a => if a = h.next then data else h.dataCells a,
        h.next + 3⟩,
       { m with current := h.next + 1, history := m.history ++ [h.next + 2] },
       h.next + 1) := by
  unfold StateMachine.setState Heap.allocData Heap.allocState
  rw [if_pos hname]
  simp

/-- Helper: a `setState` with a name outside the state set throws. -/
theorem setState_err_eq (h : Heap) (m : StateMachine) (name : String)
    (data : DataMap) (idv : String) (ts : ℕ) (hname : name ∉ m.states) :
    m.setState h name data idv ts = .error ("Invalid state name: " ++ name) := by
  unfold StateMachine.setState
  rw [if_neg hname]

/-- Helper: the heap/machine pair after a successful `setState` (three
fresh allocations: the data map, the new current state, its history
copy). -/
def pushState (p : Heap × StateMachine) (name : String) (data : DataMap)
    (idv : String) (ts : ℕ) : Heap × StateMachine :=
  (⟨fun a => if a = p.1.next + 2 then ⟨idv, name, ts, p.1.next⟩
             else if a = p.1.next + 1 then ⟨idv, name, ts, p.1.next⟩
             else p.1.stateCells a,
    fun a => if a = p.1.next then data else p.1.dataCells a,
    p.1.next + 3⟩,
   { p.2 with current := p.1.next + 1,
              history := p.2.history ++ [p.1.next + 2] })

/-- Helper: explicit form of `applyOp` for a `set` call. -/
theorem applyOp_set_eq (p : Heap × StateMachine) (name : String)
    (data : DataMap) (idv : String) (ts : ℕ) :
    applyOp p (.set name data idv ts) =
      if name ∈ p.2.states then (pushState p name data idv ts, true)
      else (p, false) := by
  simp only [applyOp]
  by_cases hname : name ∈ p.2.states
  · rw [setState_ok_eq p.1 p.2 name data idv ts hname, if_pos hname]
    rfl
  · rw [setState_err_eq p.1 p.2 name data idv ts hname, if_neg hname]

/-- Helper: explicit form of `applyOp` for a `transition` call. -/
theorem applyOp_trans_eq (p : Heap × StateMachine) (toName : String)
    (data : DataMap) (idv : String) (ts : ℕ) :
    applyOp p (.trans toName data idv ts) =
      if toName ∈ (p.2.transitions.lookup
            (p.1.stateCells p.2.current).name).getD [] ∧
          toName ∈ p.2.states then (pushState p toName data idv ts, true)
      else (p, false) := by
  simp only [applyOp]
  unfold StateMachine.transition
  by_cases hall : toName ∈ (p.2.transitions.lookup
      (p.1.stateCells p.2.current).name).getD []
  · rw [if_pos hall]
    by_cases hname : toName ∈ p.2.states
    · rw [setState_ok_eq p.1 p.2 toName data idv ts hname,
        if_pos ⟨hall, hname⟩]
      rfl
    · rw [setState_err_eq p.1 p.2 toName data idv ts hname,
        if_neg (fun hc => hname hc.2)]
  · rw [if_neg hall, if_neg (fun hc => hall hc.1)]

/-- Helper: explicit form of `applyOp` for a `reset` call on a
machine with non-empty history. -/
theorem applyOp_reset_eq (p : Heap × StateMachine) (idv : String)
    (ts : ℕ) (a0 : ℕ) (rest : List ℕ) (hh : p.2.history = a0 :: rest) :
    applyOp p (.reset idv ts) =
      ((⟨fun a => if a = p.1.next + 1 then
                    { p.1.stateCells a0 with timestamp := ts, id := idv }
                  else if a = p.1.next then
                    { p.1.stateCells a0 with timestamp := ts, id := idv }
                  else p.1.stateCells a,
         p.1.dataCells, p.1.next + 2⟩,
        { p.2 with current := p.1.next, history := [p.1.next + 1] }), true) := by
  simp only [applyOp]
  unfold StateMachine.reset Heap.allocState
  rw [hh]
  simp

/-! ### StateMachine: reachability invariants -/

/-- Helper: well-formedness of a heap/machine pair — every address
the machine holds (directly or through a state cell's data reference)
is allocated, and the history is non-empty.  It holds after
construction and is preserved by every call. -/
def WF (p : Heap × StateMachine) : Prop :=
  p.2.current < p.1.next ∧
  (∀ a ∈ p.2.history, a < p.1.next) ∧
  p.2.history ≠ [] ∧
  (p.1.stateCells p.2.current).data < p.1.next ∧
  (∀ a ∈ p.2.history, (p.1.stateCells a).data < p.1.next)

/-- Helper: the constructor establishes well-formedness. -/
theorem WF_create (cfg : IStateConfig) (idv : String) (ts : ℕ) (h : Heap) :
    WF (StateMachine.create cfg idv ts h) := by
  rw [create_eq]
  unfold WF
  refine ⟨by simp, ?_, by simp, by simp, ?_⟩
  · intro a ha
    simp at ha
    simp [ha]
  · intro a ha
    simp at ha
    subst ha
    simp

/-- Helper: every reachability fact about the pair produced by a
successful `setState`.  Reading off the conjuncts: well-formedness,
unchanged configuration, unchanged `history[0]` cell and data, the new
current name, and the history growing by one. -/
theorem pushState_inv (p : Heap × StateMachine) (name : String)
    (data : DataMap) (idv : String) (ts : ℕ) (hwf : WF p) :
    WF (pushState p name data idv ts) ∧
    (pushState p name data idv ts).2.states = p.2.states ∧
    (pushState p name data idv ts).2.transitions = p.2.transitions ∧
    headState (pushState p name data idv ts) = headState p ∧
    headData (pushState p name data idv ts) = headData p ∧
    currentName (pushState p name data idv ts) = name ∧
    (pushState p name data idv ts).2.history.length =
      p.2.history.length + 1 := by
  obtain ⟨hcur, hhist, hne, hcd, hhd⟩ := hwf
  obtain ⟨a0, rest, hh⟩ : ∃ a0 rest, p.2.history = a0 :: rest := by
    cases hhh : p.2.history with
    | nil => exact absurd hhh hne
    | cons a0 rest => exact ⟨a0, rest, rfl⟩
  have ha0 : a0 < p.1.next := hhist a0 (by simp [hh])
  have ha0d : (p.1.stateCells a0).data < p.1.next := hhd a0 (by simp [hh])
  have ehist : (pushState p name data idv ts).2.history =
      p.2.history ++ [p.1.next + 2] := rfl
  have ecur : (pushState p name data idv ts).2.current = p.1.next + 1 := rfl
  have enext : (pushState p name data idv ts).1.next = p.1.next + 3 := rfl
  have ecellv : ∀ a, (pushState p name data idv ts).1.stateCells a =
      if a = p.1.next + 2 then ⟨idv, name, ts, p.1.next⟩
      else if a = p.1.next + 1 then ⟨idv, name, ts, p.1.next⟩
      else p.1.stateCells a := fun a => rfl
  have edatav : ∀ a, (pushState p name data idv ts).1.dataCells a =
      if a = p.1.next then data else p.1.dataCells a := fun a => rfl
  have ecell : ∀ a, a < p.1.next →
      (pushState p name data idv ts).1.stateCells a = p.1.stateCells a := by
    intro a ha
    rw [ecellv a, if_neg (by omega), if_neg (by omega)]
  have edata : ∀ a, a < p.1.next →
      (pushState p name data idv ts).1.dataCells a = p.1.dataCells a := by
    intro a ha
    rw [edatav a, if_neg (by omega)]
  have ecell1 : (pushState p name data idv ts).1.stateCells (p.1.next + 1) =
      ⟨idv, name, ts, p.1.next⟩ := by
    rw [ecellv _, if_neg (by omega), if_pos rfl]
  have ecell2 : (pushState p name data idv ts).1.stateCells (p.1.next + 2) =
      ⟨idv, name, ts, p.1.next⟩ := by
    rw [ecellv _, if_pos rfl]
  have hheadPres : headState (pushState p name data idv ts) = headState p := by
    simp only [headState]
    rw [ehist, hh]
    simp only [List.cons_append, List.headI]
    exact ecell a0 ha0
  refine ⟨⟨?_, ?_, ?_, ?_, ?_⟩, rfl, rfl, hheadPres, ?_, ?_, ?_⟩
  · rw [ecur, enext]
    omega
  · intro a ha
    rw [ehist] at ha
    rw [enext]
    simp only [List.mem_append, List.mem_singleton] at ha
    rcases ha with ha | ha
    · exact lt_trans (hhist a ha) (by omega)
    · omega
  · rw [ehist]
    simp
  · rw [ecur, enext, ecell1]
    show p.1.next < p.1.next + 3
    omega
  · intro a ha
    rw [ehist] at ha
    rw [enext]
    simp only [List.mem_append, List.mem_singleton] at ha
    rcases ha with ha | ha
    · rw [ecell a (hhist a ha)]
      exact lt_trans (hhd a ha) (by omega)
    · subst ha
      rw [ecell2]
      show p.1.next < p.1.next + 3
      omega
  · simp only [headData]
    rw [hheadPres]
    have hlt : (headState p).data < p.1.next := by
      simp only [headState]
      rw [hh]
      simpa using ha0d
    exact edata _ hlt
  · simp only [currentName]
    rw [ecur, ecell1]
  · rw [ehist]
    simp

/-- Helper: one call preserves every reachability invariant; reading
off the conjuncts: well-formedness, the configured state set and
transition table, the name of `history[0]`, membership of the current
name in the states set, and — for non-`reset` calls — `history[0]`'s
cell, its data content, and the history length bookkeeping. -/
theorem applyOp_inv (p : Heap × StateMachine) (op : SMOp) (hwf : WF p) :
    WF (applyOp p op).1 ∧
    (applyOp p op).1.2.states = p.2.states ∧
    (applyOp p op).1.2.transitions = p.2.transitions ∧
    (headState (applyOp p op).1).name = (headState p).name ∧
    (currentName p ∈ p.2.states → (headState p).name ∈ p.2.states →
      currentName (applyOp p op).1 ∈ p.2.states) ∧
    (op.isReset = false →
      headState (applyOp p op).1 = headState p ∧
      headData (applyOp p op).1 = headData p ∧
      (applyOp p op).1.2.history.length =
        p.2.history.length + (if (applyOp p op).2 then 1 else 0)) := by
  have hwf' := hwf
  obtain ⟨hcur, hhist, hne, hcd, hhd⟩ := hwf'
  obtain ⟨a0, rest, hh⟩ : ∃ a0 rest, p.2.history = a0 :: rest := by
    cases hhh : p.2.history with
    | nil => exact absurd hhh hne
    | cons a0 rest => exact ⟨a0, rest, rfl⟩
  have ha0 : a0 < p.1.next := hhist a0 (by simp [hh])
  cases op with
  | set name data idv ts =>
    rw [applyOp_set_eq]
    by_cases hname : name ∈ p.2.states
    · rw [if_pos hname]
      obtain ⟨hw, hs, ht, hhp, hdp, hcn, hlen⟩ :=
        pushState_inv p name data idv ts hwf
      exact ⟨hw, hs, ht, by rw [hhp], fun _ _ => by rwa [hcn],
        fun _ => ⟨hhp, hdp, by simpa using hlen⟩⟩
    · rw [if_neg hname]
      exact ⟨hwf, rfl, rfl, rfl, fun hc _ => hc,
        fun _ => ⟨rfl, rfl, by simp⟩⟩
  | trans toName data idv ts =>
    rw [applyOp_trans_eq]
    by_cases hcond : toName ∈ (p.2.transitions.lookup
        (p.1.stateCells p.2.current).name).getD [] ∧ toName ∈ p.2.states
    · rw [if_pos hcond]
      obtain ⟨hw, hs, ht, hhp, hdp, hcn, hlen⟩ :=
        pushState_inv p toName data idv ts hwf
      refine ⟨hw, hs, ht, by rw [hhp], fun _ _ => ?_,
        fun _ => ⟨hhp, hdp, by simpa using hlen⟩⟩
      rw [hcn]
      exact hcond.2
    · rw [if_neg hcond]
      exact ⟨hwf, rfl, rfl, rfl, fun hc _ => hc,
        fun _ => ⟨rfl, rfl, by simp⟩⟩
  | reset idv ts =>
    rw [applyOp_reset_eq p idv ts a0 rest hh]
    have ecellv : ∀ a,
        (⟨fun a => if a = p.1.next + 1 then
              { p.1.stateCells a0 with timestamp := ts, id := idv }
            else if a = p.1.next then
              { p.1.stateCells a0 with timestamp := ts, id := idv }
            else p.1.stateCells a,
          p.1.dataCells, p.1.next + 2⟩ : Heap).stateCells a =
        if a = p.1.next + 1 then
          { p.1.stateCells a0 with timestamp := ts, id := idv }
        else if a = p.1.next then
          { p.1.stateCells a0 with timestamp := ts, id := idv }
        else p.1.stateCells a := fun a => rfl
    refine ⟨⟨?_, ?_, ?_, ?_, ?_⟩, rfl, rfl, ?_, ?_, ?_⟩
    · show p.1.next < p.1.next + 2
      omega
    · intro a ha
      simp only [List.mem_singleton] at ha
      show a < p.1.next + 2
      omega
    · simp
    · have := hhd a0 (by simp [hh])
      simp
      omega
    · intro a ha
      simp only [List.mem_singleton] at ha
      subst ha
      have := hhd a0 (by simp [hh])
      simp
      omega
    · simp [headState, hh]
    · intro _ hhead
      simp [headState, hh] at hhead
      simp [currentName]
      exact hhead
    · intro hfalse
      simp [SMOp.isReset] at hfalse

/-- Helper: unfolding of `runOps` on a cons. -/
theorem runOps_cons (p : Heap × StateMachine) (op : SMOp) (rest : List SMOp) :
    runOps p (op :: rest) =
      ((runOps (applyOp p op).1 rest).1,
       (if (applyOp p op).2 then 1 else 0) + (runOps (applyOp p op).1 rest).2) :=
  rfl

/-- Helper: the head of a reset-free call list is not a `reset`. -/
theorem resetFree_cons_not_reset (op : SMOp) (rest : List SMOp)
    (hrf : resetFree (op :: rest) = true) : op.isReset = false := by
  cases op <;> simp [resetFree, SMOp.isReset] at hrf ⊢

/-- Helper: the tail of a reset-free call list is reset-free. -/
theorem resetFree_cons_rest (op : SMOp) (rest : List SMOp)
    (hrf : resetFree (op :: rest) = true) : resetFree rest = true := by
  cases op <;> simp [resetFree] at hrf <;> exact hrf

/-- Helper: the per-call invariants extended to whole call sequences
by induction. -/
theorem runOps_inv (p : Heap × StateMachine) (ops : List SMOp) (hwf : WF p) :
    WF (runOps p ops).1 ∧
    (runOps p ops).1.2.states = p.2.states ∧
    (runOps p ops).1.2.transitions = p.2.transitions ∧
    (headState (runOps p ops).1).name = (headState p).name ∧
    (currentName p ∈ p.2.states → (headState p).name ∈ p.2.states →
      currentName (runOps p ops).1 ∈ p.2.states) ∧
    (resetFree ops = true →
      headState (runOps p ops).1 = headState p ∧
      headData (runOps p ops).1 = headData p ∧
      (runOps p ops).1.2.history.length =
        p.2.history.length + (runOps p ops).2) := by
  induction ops generalizing p with
  | nil =>
    exact ⟨hwf, rfl, rfl, rfl, fun hc _ => hc,
      fun _ => ⟨rfl, rfl, by simp [runOps]⟩⟩
  | cons op rest ih =>
    obtain ⟨hw1, hs1, ht1, hn1, hc1, hr1⟩ := applyOp_inv p op hwf
    obtain ⟨hw2, hs2, ht2, hn2, hc2, hr2⟩ := ih (applyOp p op).1 hw1
    rw [runOps_cons]
    refine ⟨hw2, ?_, ?_, ?_, ?_, ?_⟩
    · show (runOps (applyOp p op).1 rest).1.2.states = p.2.states
      rw [hs2, hs1]
    · show (runOps (applyOp p op).1 rest).1.2.transitions = p.2.transitions
      rw [ht2, ht1]
    · show (headState (runOps (applyOp p op).1 rest).1).name = (headState p).name
      rw [hn2, hn1]
    · intro hcp hnp
      show currentName (runOps (applyOp p op).1 rest).1 ∈ p.2.states
      have h1 : currentName (applyOp p op).1 ∈ (applyOp p op).1.2.states := by
        rw [hs1]
        exact hc1 hcp hnp
      have h2 : (headState (applyOp p op).1).name ∈ (applyOp p op).1.2.states := by
        rw [hs1, hn1]
        exact hnp
      have h3 := hc2 h1 h2
      rwa [hs1] at h3
    · intro hrf
      have hopne := resetFree_cons_not_reset op rest hrf
      have hrfrest := resetFree_cons_rest op rest hrf
      obtain ⟨ha1, hb1, hl1⟩ := hr1 hopne
      obtain ⟨ha2, hb2, hl2⟩ := hr2 hrfrest
      refine ⟨?_, ?_, ?_⟩
      · show headState (runOps (applyOp p op).1 rest).1 = headState p
        rw [ha2, ha1]
      · show headData (runOps (applyOp p op).1 rest).1 = headData p
        rw [hb2, hb1]
      · show (runOps (applyOp p op).1 rest).1.2.history.length =
          p.2.history.length +
            ((if (applyOp p op).2 then 1 else 0) +
              (runOps (applyOp p op).1 rest).2)
        rw [hl2, hl1]
        omega

/-- Helper: explicit form of `reset` on a machine with non-empty
history. -/
theorem reset_eq (h : Heap) (m : StateMachine) (idv : String) (ts : ℕ)
    (a0 : ℕ) (rest : List ℕ) (hh : m.history = a0 :: rest) :
    m.reset h idv ts =
      (⟨fun a => if a = h.next + 1 then
            { h.stateCells a0 with timestamp := ts, id := idv }
          else if a = h.next then
            { h.stateCells a0 with timestamp := ts, id := idv }
          else h.stateCells a,
        h.dataCells, h.next + 2⟩,
       { m with current := h.next, history := [h.next + 1] }) := by
  unfold StateMachine.reset Heap.allocState
  rw [hh]
  simp

/-- Helper: `reset` truncates the history to one entry and the new
current state carries `history[0]`'s name. -/
theorem reset_after (h : Heap) (m : StateMachine) (idv : String) (ts : ℕ)
    (hwf : WF (h, m)) :
    (m.reset h idv ts).2.history.length = 1 ∧
    ((m.reset h idv ts).1.stateCells (m.reset h idv ts).2.current).name =
      (headState (h, m)).name := by
  obtain ⟨_, _, hne, _, _⟩ := hwf
  obtain ⟨a0, rest, hh⟩ : ∃ a0 rest, m.history = a0 :: rest := by
    cases hhh : m.history with
    | nil => exact absurd hhh hne
    | cons a0 rest => exact ⟨a0, rest, rfl⟩
  rw [reset_eq h m idv ts a0 rest hh]
  refine ⟨by simp, ?_⟩
  simp [headState, hh]

/-! ### Claims C3-C6 -/

/-- Claim C3, counterexample: with `states = ["A"]` and
`transitions = {A: ["B"]}`, the target `"B"` is in the allowed list of
the current state, yet `transition("B")` fails — the delegated
`setState` throws because `"B"` is outside the states set. -/
theorem C3_transition_counterexample :
    "B" ∈ ((StateMachine.create ⟨"A", ["A"], [("A", ["B"])]⟩ "id0" 0
        Heap.empty).2.transitions.lookup
      ((StateMachine.create ⟨"A", ["A"], [("A", ["B"])]⟩ "id0" 0
          Heap.empty).1.stateCells
        (StateMachine.create ⟨"A", ["A"], [("A", ["B"])]⟩ "id0" 0
          Heap.empty).2.current).name).getD [] ∧
    ((StateMachine.create ⟨"A", ["A"], [("A", ["B"])]⟩ "id0" 0
        Heap.empty).2.transition
      (StateMachine.create ⟨"A", ["A"], [("A", ["B"])]⟩ "id0" 0
        Heap.empty).1 "B" [] "id1" 1).isOk = false := by
  constructor
  · decide
  · decide

/-- Claim C3, amended: `transition(to)` succeeds iff `to` is in the
allowed list of the current state's name (an absent entry meaning no
outgoing transitions) AND `to` is a member of the configured states
set (the check of the delegated `setState`); `setState(s)` succeeds
iff `s` is a member of the configured states set. -/
theorem C3_transition_setState_iff_amended :
    (∀ (h : Heap) (m : StateMachine) (toName : String) (data : DataMap)
        (idv : String) (ts : ℕ),
      (m.transition h toName data idv ts).isOk = true ↔
        (toName ∈ (m.transitions.lookup
            (h.stateCells m.current).name).getD [] ∧
          toName ∈ m.states)) ∧
    (∀ (h : Heap) (m : StateMachine) (name : String) (data : DataMap)
        (idv : String) (ts : ℕ),
      (m.setState h name data idv ts).isOk = true ↔ name ∈ m.states) := by
  constructor
  · intro h m toName data idv ts
    unfold StateMachine.transition
    by_cases hall : toName ∈ (m.transitions.lookup
        (h.stateCells m.current).name).getD []
    · rw [if_pos hall]
      by_cases hname : toName ∈ m.states
      · rw [setState_ok_eq h m toName data idv ts hname]
        simp [Except.isOk, Except.toBool, hall, hname]
      · rw [setState_err_eq h m toName data idv ts hname]
        simp [Except.isOk, Except.toBool, hname]
    · rw [if_neg hall]
      simp [Except.isOk, Except.toBool, hall]
  · intro h m name data idv ts
    by_cases hname : name ∈ m.states
    · rw [setState_ok_eq h m name data idv ts hname]
      simp [Except.isOk, Except.toBool, hname]
    · rw [setState_err_eq h m name data idv ts hname]
      simp [Except.isOk, Except.toBool, hname]

/-- Witness for C3's amended theorem: on a machine whose current state
is `"A"` with `A → B` allowed and `B` a valid state, `transition("B")`
succeeds. -/
theorem C3_transition_setState_iff_amended_witness :
    ((StateMachine.create ⟨"A", ["A", "B"], [("A", ["B"])]⟩ "id0" 0
        Heap.empty).2.transition
      (StateMachine.create ⟨"A", ["A", "B"], [("A", ["B"])]⟩ "id0" 0
        Heap.empty).1 "B" [] "id1" 1).isOk = true :=
  (C3_transition_setState_iff_amended.1
      (StateMachine.create ⟨"A", ["A", "B"], [("A", ["B"])]⟩ "id0" 0
        Heap.empty).1
      (StateMachine.create ⟨"A", ["A", "B"], [("A", ["B"])]⟩ "id0" 0
        Heap.empty).2
      "B" [] "id1" 1).mpr (by decide)

/-- Claim C4, counterexample: the constructor performs no validation —
a configuration whose initial state `"START"` is outside the states
set `["A"]` is accepted, and the machine starts with a current state
name outside the configured set. -/
theorem C4_construction_counterexample :
    (StateMachine.create ⟨"START", ["A"], []⟩ "id0" 0 Heap.empty).2.states
        = ["A"] ∧
    currentName (StateMachine.create ⟨"START", ["A"], []⟩ "id0" 0
        Heap.empty) = "START" ∧
    currentName (StateMachine.create ⟨"START", ["A"], []⟩ "id0" 0
        Heap.empty) ∉
      (StateMachine.create ⟨"START", ["A"], []⟩ "id0" 0
        Heap.empty).2.states := by
  refine ⟨by decide, by decide, by decide⟩

/-- Claim C4, amended: the constructor accepts any configuration
without validation; whenever the configured initial state is a member
of the states set, the current state's name is a member of the states
set at all times — immediately after construction and after every
sequence of setState/transition/reset calls. -/
theorem C4_current_state_inv_amended (cfg : IStateConfig) (idv : String)
    (ts : ℕ) (h : Heap) (ops : List SMOp)
    (hinit : cfg.initialState ∈ cfg.states) :
    currentName (StateMachine.create cfg idv ts h) = cfg.initialState ∧
    currentName (runOps (StateMachine.create cfg idv ts h) ops).1 ∈
      cfg.states := by
  have e1 : currentName (StateMachine.create cfg idv ts h) =
      cfg.initialState := by
    rw [create_eq]
    simp [currentName]
  have e2 : (headState (StateMachine.create cfg idv ts h)).name =
      cfg.initialState := by
    rw [create_eq]
    simp [headState]
  have e3 : (StateMachine.create cfg idv ts h).2.states = cfg.states := by
    rw [create_eq]
  obtain ⟨_, _, _, _, hc, _⟩ := runOps_inv (StateMachine.create cfg idv ts h)
    ops (WF_create cfg idv ts h)
  refine ⟨e1, ?_⟩
  rw [← e3]
  exact hc (by rw [e1, e3]; exact hinit) (by rw [e2, e3]; exact hinit)

/-- Witness for C4's amended theorem on a concrete two-state machine
after one legal transition. -/
theorem C4_current_state_inv_amended_witness :
    "A" ∈ ["A", "B"] ∧
      currentName (StateMachine.create ⟨"A", ["A", "B"], [("A", ["B"])]⟩
          "id0" 0 Heap.empty) = "A" ∧
      currentName (runOps (StateMachine.create ⟨"A", ["A", "B"],
          [("A", ["B"])]⟩ "id0" 0 Heap.empty)
        [SMOp.trans "B" [] "id1" 1]).1 ∈ ["A", "B"] := by
  have := C4_current_state_inv_amended ⟨"A", ["A", "B"], [("A", ["B"])]⟩
    "id0" 0 Heap.empty [SMOp.trans "B" [] "id1" 1] (by decide)
  exact ⟨by decide, this.1, this.2⟩

/-- Claim C6: after `N` successful `setState`/`transition` calls since
construction (no `reset` among them) the history has length `N + 1`
and `history[0]`'s name and data still carry the construction values
(initial state name, empty data map); after any call sequence at all,
`reset()` leaves the history with exactly one entry and makes the
current state's name equal to the configured initial state name. -/
theorem C6_history_reset_spec (cfg : IStateConfig) (idv : String)
    (ts : ℕ) (h : Heap) (ops : List SMOp) (idv' : String) (ts' : ℕ) :
    (resetFree ops = true →
      (runOps (StateMachine.create cfg idv ts h) ops).1.2.history.length =
        1 + (runOps (StateMachine.create cfg idv ts h) ops).2 ∧
      (headState (runOps (StateMachine.create cfg idv ts h) ops).1).name =
        cfg.initialState ∧
      headData (runOps (StateMachine.create cfg idv ts h) ops).1 = []) ∧
    (((runOps (StateMachine.create cfg idv ts h) ops).1.2.reset
        (runOps (StateMachine.create cfg idv ts h) ops).1.1 idv' ts'
        ).2.history.length = 1 ∧
      (((runOps (StateMachine.create cfg idv ts h) ops).1.2.reset
          (runOps (StateMachine.create cfg idv ts h) ops).1.1 idv' ts'
          ).1.stateCells
        ((runOps (StateMachine.create cfg idv ts h) ops).1.2.reset
          (runOps (StateMachine.create cfg idv ts h) ops).1.1 idv' ts'
          ).2.current).name = cfg.initialState) := by
  have hwf0 := WF_create cfg idv ts h
  obtain ⟨hw, _, _, hname, _, hrf⟩ :=
    runOps_inv (StateMachine.create cfg idv ts h) ops hwf0
  have ehead : (headState (StateMachine.create cfg idv ts h)).name =
      cfg.initialState := by
    rw [create_eq]
    simp [headState]
  have ehlen : (StateMachine.create cfg idv ts h).2.history.length = 1 := by
    rw [create_eq]
    rfl
  have ehdata : headData (StateMachine.create cfg idv ts h) = [] := by
    rw [create_eq]
    simp [headData, headState]
  constructor
  · intro hres
    obtain ⟨ha, hb, hc⟩ := hrf hres
    refine ⟨?_, ?_, ?_⟩
    · rw [hc, ehlen]
    · rw [ha, ehead]
    · rw [hb, ehdata]
  · have hr := reset_after
      (runOps (StateMachine.create cfg idv ts h) ops).1.1
      (runOps (StateMachine.create cfg idv ts h) ops).1.2 idv' ts' (by
        simpa using hw)
    refine ⟨by simpa using hr.1, ?_⟩
    have := hr.2
    rw [show ((runOps (StateMachine.create cfg idv ts h) ops).1.1,
        (runOps (StateMachine.create cfg idv ts h) ops).1.2) =
        (runOps (StateMachine.create cfg idv ts h) ops).1 from rfl] at this
    rw [this, hname, ehead]

/-- Witness for C6 at a concrete machine: one successful `setState`
call (reset-free), then a `reset`. -/
theorem C6_history_reset_spec_witness :
    resetFree [SMOp.set "B" [("k", "v")] "id1" 1] = true ∧
      (runOps (StateMachine.create ⟨"A", ["A", "B"], []⟩ "id0" 0 Heap.empty)
        [SMOp.set "B" [("k", "v")] "id1" 1]).1.2.history.length =
        1 + (runOps (StateMachine.create ⟨"A", ["A", "B"], []⟩ "id0" 0
          Heap.empty) [SMOp.set "B" [("k", "v")] "id1" 1]).2 ∧
      (headState (runOps (StateMachine.create ⟨"A", ["A", "B"], []⟩ "id0" 0
        Heap.empty) [SMOp.set "B" [("k", "v")] "id1" 1]).1).name = "A" :=
  ⟨by decide,
    ((C6_history_reset_spec ⟨"A", ["A", "B"], []⟩ "id0" 0 Heap.empty
      [SMOp.set "B" [("k", "v")] "id1" 1] "id2" 2).1 (by decide)).1,
    ((C6_history_reset_spec ⟨"A", ["A", "B"], []⟩ "id0" 0 Heap.empty
      [SMOp.set "B" [("k", "v")] "id1" 1] "id2" 2).1 (by decide)).2.1⟩

/-! ### Claim C5: defensive copies -/

/-- Claim C5, counterexample: `getState()` returns only a shallow
spread copy — the nested `data` map is the same heap reference, so a
caller writing through the returned object's data map changes the
machine's internal current state's observable data (from the empty map
to `[("hacked", "true")]`). -/
theorem C5_getState_counterexample :
    (let p := StateMachine.create ⟨"IDLE", ["IDLE"], []⟩ "id0" 0 Heap.empty
     let g := p.2.getState p.1
     let dAddr := (g.1.stateCells g.2).data
     let h2 := g.1.writeData dAddr [("hacked", "true")]
     p.1.dataCells (p.1.stateCells p.2.current).data = [] ∧
       h2.dataCells (h2.stateCells p.2.current).data =
         [("hacked", "true")]) := by
  decide

/-- Claim C5, amended: `getState()` allocates a fresh object (so a
caller's write to the returned object's own fields leaves the internal
current state unchanged) whose fields — including the nested `data`
map *reference* — equal the current cell's, so the nested data map is
shared, not copied; `getHistory()` returns a fresh array holding the
internal history's object references themselves. -/
theorem C5_defensive_copy_amended :
    (∀ (h : Heap) (m : StateMachine),
      (m.getState h).2 = h.next ∧
      (m.getState h).1.stateCells (m.getState h).2 =
        h.stateCells m.current) ∧
    (∀ (h : Heap) (m : StateMachine) (s : IState), m.current < h.next →
      ((m.getState h).1.writeState (m.getState h).2 s).stateCells
        m.current = h.stateCells m.current) ∧
    (∀ m : StateMachine, m.getHistory = m.history) := by
  refine ⟨?_, ?_, fun m => rfl⟩
  · intro h m
    refine ⟨rfl, ?_⟩
    show (if h.next = h.next then h.stateCells m.current
        else h.stateCells h.next) = h.stateCells m.current
    rw [if_pos rfl]
  · intro h m s hlt
    have e : ((m.getState h).1.writeState (m.getState h).2 s).stateCells
        m.current =
        if m.current = h.next then s
        else if m.current = h.next then h.stateCells m.current
        else h.stateCells m.current := rfl
    rw [e, if_neg (by omega), if_neg (by omega)]

/-- Witness for C5's amended theorem: a caller's field write on the
object returned by `getState` does not change the machine's internal
current state cell. -/
theorem C5_defensive_copy_amended_witness :
    (StateMachine.create ⟨"IDLE", ["IDLE"], []⟩ "id0" 0
        Heap.empty).2.current <
      (StateMachine.create ⟨"IDLE", ["IDLE"], []⟩ "id0" 0
        Heap.empty).1.next ∧
    (((StateMachine.create ⟨"IDLE", ["IDLE"], []⟩ "id0" 0
          Heap.empty).2.getState
        (StateMachine.create ⟨"IDLE", ["IDLE"], []⟩ "id0" 0
          Heap.empty).1).1.writeState
      ((StateMachine.create ⟨"IDLE", ["IDLE"], []⟩ "id0" 0
          Heap.empty).2.getState
        (StateMachine.create ⟨"IDLE", ["IDLE"], []⟩ "id0" 0
          Heap.empty).1).2
      ⟨"evil", "EVIL", 9, 9⟩).stateCells
      (StateMachine.create ⟨"IDLE", ["IDLE"], []⟩ "id0" 0
        Heap.empty).2.current =
    (StateMachine.create ⟨"IDLE", ["IDLE"], []⟩ "id0" 0
        Heap.empty).1.stateCells
      (StateMachine.create ⟨"IDLE", ["IDLE"], []⟩ "id0" 0
        Heap.empty).2.current :=
  ⟨by decide,
    C5_defensive_copy_amended.2.1
      (StateMachine.create ⟨"IDLE", ["IDLE"], []⟩ "id0" 0 Heap.empty).1
      (StateMachine.create ⟨"IDLE", ["IDLE"], []⟩ "id0" 0 Heap.empty).2
      ⟨"evil", "EVIL", 9, 9⟩ (by decide)⟩

end SingularityPlugins
